import Mathlib

set_option autoImplicit false

namespace Katana

/-!
Shallow embedding of the Katana benchmark automation framework.

Config-file text is modelled as `List Char`.  The CS2 preset adapter
(`src/katana/games/cs2/presets.py`) builds the regex
`rf'"{key}"\s+"[^"]*"'` from the (unescaped) setting key and uses
`re.search` / `re.sub` on the config text.  For the keys occurring in this
code base the only regex metacharacter a key contains is the dot, which in
Python matches any character other than a newline; every other key
character is matched literally.  Since the character class `[^"]` and the
whitespace class `\s` both exclude the double quote that must follow them,
greedy matching coincides with maximal munch and the whole pattern is
deterministic, which is what the functions below implement.
-/

/-- The double quote character. -/
def qc : Char := '\"'

/-- Python's `\s` class, restricted to the ASCII whitespace characters. -/
def pyIsSpace (c : Char) : Bool :=
  c = ' ' || c = '\t' || c = '\n' || c = '\r' || c = Char.ofNat 11 || c = Char.ofNat 12

/-- Match the interpolated key portion of the pattern against the input:
a dot in the key matches any character except a newline, every other key
character matches itself.  Returns the consumed characters (the text that
the key portion actually matched) and the remaining input. -/
def keyChars : List Char → List Char → Option (List Char × List Char)
  | [], s => some ([], s)
  | _ :: _, [] => none
  | k :: ks, c :: cs =>
    if (k = '.' ∧ c ≠ '\n') ∨ k = c then
      match keyChars ks cs with
      | some (kc, rest) => some (c :: kc, rest)
      | none => none
    else none

/-- Match the full pattern `"KEY"\s+"[^"]*"` at the head of `s`.
Returns the matched text (`group(0)`) and the remaining input. -/
def matchPat (key : List Char) (s : List Char) : Option (List Char × List Char) :=
  match s with
  | [] => none
  | c0 :: s1 =>
    if c0 = qc then
      match keyChars key s1 with
      | none => none
      | some (kc, s2) =>
        match s2 with
        | [] => none
        | c1 :: s3 =>
          if c1 = qc then
            let ws := s3.takeWhile pyIsSpace
            let s4 := s3.dropWhile pyIsSpace
            if ws = [] then none
            else
              match s4 with
              | [] => none
              | c2 :: s5 =>
                if c2 = qc then
                  let v := s5.takeWhile (fun c => c ≠ qc)
                  let s6 := s5.dropWhile (fun c => c ≠ qc)
                  match s6 with
                  | [] => none
                  | c3 :: s7 =>
                    if c3 = qc then
                      some (qc :: kc ++ qc :: ws ++ qc :: v ++ [qc], s7)
                    else none
                else none
          else none
    else none

theorem keyChars_append {ks s kc rest : List Char}
    (h : keyChars ks s = some (kc, rest)) : s = kc ++ rest := by
  induction ks generalizing s kc rest with
  | nil =>
    simp [keyChars] at h
    simp [h.1, h.2]
  | cons k ks ih =>
    cases s with
    | nil => simp [keyChars] at h
    | cons c cs =>
      simp only [keyChars] at h
      split at h
      · cases hrec : keyChars ks cs with
        | none => rw [hrec] at h; simp at h
        | some p =>
          obtain ⟨kc', rest'⟩ := p
          rw [hrec] at h
          simp at h
          have := ih hrec
          simp [← h.1, ← h.2, this]

      · simp at h

theorem matchPat_append {key s m rest : List Char}
    (h : matchPat key s = some (m, rest)) : s = m ++ rest ∧ 0 < m.length := by
  cases s with
  | nil => simp [matchPat] at h
  | cons c0 s1 =>
    simp only [matchPat] at h
    split at h
    case isFalse => simp at h
    case isTrue hq0 =>
      cases hk : keyChars key s1 with
      | none => rw [hk] at h; simp at h
      | some p =>
        obtain ⟨kc, s2⟩ := p
        rw [hk] at h
        have hs1 : s1 = kc ++ s2 := keyChars_append hk
        cases s2 with
        | nil => simp at h
        | cons c1 s3 =>
          simp only at h
          split at h
          case isFalse => simp at h
          case isTrue hq1 =>
            split at h
            case isTrue => simp at h
            case isFalse hws =>
              cases hs4 : s3.dropWhile pyIsSpace with
              | nil => rw [hs4] at h; simp at h
              | cons c2 s5 =>
                rw [hs4] at h
                simp only at h
                split at h
                case isFalse => simp at h
                case isTrue hq2 =>
                  cases hs6 : s5.dropWhile (fun c => c ≠ qc) with
                  | nil => rw [hs6] at h; simp at h
                  | cons c3 s7 =>
                    rw [hs6] at h
                    simp only at h
                    split at h
                    case isFalse => simp at h
                    case isTrue hq3 =>
                      simp only [Option.some.injEq, Prod.mk.injEq] at h
                      have hs3 : s3 = s3.takeWhile pyIsSpace ++ (c2 :: s5) := by
                        rw [← hs4]
                        exact (List.takeWhile_append_dropWhile pyIsSpace s3).symm
                      have hs5 : s5 = s5.takeWhile (fun c => c ≠ qc) ++ (c3 :: s7) := by
                        rw [← hs6]
                        exact (List.takeWhile_append_dropWhile (fun c => c ≠ qc) s5).symm
                      subst hq0 hq1 hq2 hq3
                      constructor
                      · rw [← h.1, ← h.2]
                        conv_lhs => rw [hs1, hs3]
                        conv_lhs => rw [hs5]
                        simp
                      · rw [← h.1]; simp

/-- Leftmost match of the pattern in `s` (the model of `re.search`):
returns the text before the match, the matched text and the rest. -/
def searchPat (key : List Char) : List Char → Option (List Char × List Char × List Char)
  | [] =>
    match matchPat key [] with
    | some (m, rest) => some ([], m, rest)
    | none => none
  | c :: cs =>
    match matchPat key (c :: cs) with
    | some (m, rest) => some ([], m, rest)
    | none =>
      match searchPat key cs with
      | some (p, m, r) => some (c :: p, m, r)
      | none => none

/-- Fuel-based worker for `subPat`; the fuel only has to exceed the input
length, which every call below guarantees. -/
def subPatF (key repl : List Char) : Nat → List Char → List Char
  | 0, _ => []
  | n + 1, s =>
    match matchPat key s with
    | some (_, rest) => repl ++ subPatF key repl n rest
    | none =>
      match s with
      | [] => []
      | c :: cs => c :: subPatF key repl n cs

/-- Replace every (leftmost, non-overlapping) match of the pattern by
`repl` (the model of `re.sub`). -/
def subPat (key repl s : List Char) : List Char :=
  subPatF key repl (s.length + 1) s

/-- Fuel-based worker for `pieces`. -/
def piecesF (key : List Char) : Nat → List Char → List (Bool × List Char)
  | 0, _ => []
  | n + 1, s =>
    match matchPat key s with
    | some (m, rest) => (true, m) :: piecesF key n rest
    | none =>
      match s with
      | [] => []
      | c :: cs => (false, [c]) :: piecesF key n cs

/-- Decompose `s` into the segments that `re.sub` would act on: pairs
`(true, m)` for the matched segments and `(false, [c])` for the characters
outside every match. -/
def pieces (key s : List Char) : List (Bool × List Char) :=
  piecesF key (s.length + 1) s

theorem subPatF_fuel (key repl : List Char) :
    ∀ n m s, s.length < n → s.length < m →
      subPatF key repl n s = subPatF key repl m s := by
  intro n
  induction n with
  | zero => intro m s h _; omega
  | succ n ih =>
    intro m s hn hm
    cases m with
    | zero => omega
    | succ m =>
      simp only [subPatF]
      cases hmt : matchPat key s with
      | some pr =>
        obtain ⟨mm, rest⟩ := pr
        obtain ⟨hs, hlen⟩ := matchPat_append hmt
        simp only [hmt]
        congr 1
        apply ih
        · subst hs; simp at hn; omega
        · subst hs; simp at hm; omega
      | none =>
        simp only [hmt]
        cases s with
        | nil => rfl
        | cons c cs =>
          simp only [List.length_cons] at hn hm
          simp only [List.cons.injEq, true_and]
          apply ih <;> omega

theorem piecesF_fuel (key : List Char) :
    ∀ n m s, s.length < n → s.length < m →
      piecesF key n s = piecesF key m s := by
  intro n
  induction n with
  | zero => intro m s h _; omega
  | succ n ih =>
    intro m s hn hm
    cases m with
    | zero => omega
    | succ m =>
      simp only [piecesF]
      cases hmt : matchPat key s with
      | some pr =>
        obtain ⟨mm, rest⟩ := pr
        obtain ⟨hs, hlen⟩ := matchPat_append hmt
        simp only [hmt]
        congr 1
        apply ih
        · subst hs; simp at hn; omega
        · subst hs; simp at hm; omega
      | none =>
        simp only [hmt]
        cases s with
        | nil => rfl
        | cons c cs =>
          simp only [List.length_cons] at hn hm
          simp only [List.cons.injEq, true_and]
          apply ih <;> omega

/-- Concatenate the segments of a decomposition back together. -/
def joinSegs : List (Bool × List Char) → List Char
  | [] => []
  | p :: ps => p.2 ++ joinSegs ps

/-- Concatenate a decomposition, replacing every matched segment by `repl`. -/
def substSegs (repl : List Char) : List (Bool × List Char) → List Char
  | [] => []
  | p :: ps => (if p.1 then repl else p.2) ++ substSegs repl ps

theorem piecesF_ge {key : List Char} {n : Nat} {s : List Char} (h : s.length < n) :
    piecesF key n s = pieces key s := by
  unfold pieces
  apply piecesF_fuel <;> omega

theorem subPatF_ge {key repl : List Char} {n : Nat} {s : List Char} (h : s.length < n) :
    subPatF key repl n s = subPat key repl s := by
  unfold subPat
  apply subPatF_fuel <;> omega

theorem piecesF_succ_match {key s m rest : List Char} (n : Nat)
    (h : matchPat key s = some (m, rest)) :
    piecesF key (n + 1) s = (true, m) :: piecesF key n rest := by
  simp only [piecesF, h]

theorem piecesF_succ_nomatch {key : List Char} {c : Char} {cs : List Char} (n : Nat)
    (h : matchPat key (c :: cs) = none) :
    piecesF key (n + 1) (c :: cs) = (false, [c]) :: piecesF key n cs := by
  simp only [piecesF, h]

theorem subPatF_succ_match {key repl s m rest : List Char} (n : Nat)
    (h : matchPat key s = some (m, rest)) :
    subPatF key repl (n + 1) s = repl ++ subPatF key repl n rest := by
  simp only [subPatF, h]

theorem subPatF_succ_nomatch {key repl : List Char} {c : Char} {cs : List Char} (n : Nat)
    (h : matchPat key (c :: cs) = none) :
    subPatF key repl (n + 1) (c :: cs) = c :: subPatF key repl n cs := by
  simp only [subPatF, h]

theorem pieces_eq_match {key s m rest : List Char}
    (h : matchPat key s = some (m, rest)) :
    pieces key s = (true, m) :: pieces key rest := by
  obtain ⟨hs, hlen⟩ := matchPat_append h
  show piecesF key (s.length + 1) s = _
  rw [piecesF_succ_match s.length h]
  congr 1
  apply piecesF_ge
  subst hs; simp only [List.length_append]; omega

theorem pieces_eq_nomatch {key : List Char} {c : Char} {cs : List Char}
    (h : matchPat key (c :: cs) = none) :
    pieces key (c :: cs) = (false, [c]) :: pieces key cs := by
  show piecesF key ((c :: cs).length + 1) (c :: cs) = _
  rw [piecesF_succ_nomatch (c :: cs).length h]
  congr 1

theorem pieces_nil (key : List Char) : pieces key [] = [] := by
  simp [pieces, piecesF, matchPat]

theorem subPat_eq_match {key repl s m rest : List Char}
    (h : matchPat key s = some (m, rest)) :
    subPat key repl s = repl ++ subPat key repl rest := by
  obtain ⟨hs, hlen⟩ := matchPat_append h
  show subPatF key repl (s.length + 1) s = _
  rw [subPatF_succ_match s.length h]
  congr 1
  apply subPatF_ge
  subst hs; simp only [List.length_append]; omega

theorem subPat_eq_nomatch {key repl : List Char} {c : Char} {cs : List Char}
    (h : matchPat key (c :: cs) = none) :
    subPat key repl (c :: cs) = c :: subPat key repl cs := by
  show subPatF key repl ((c :: cs).length + 1) (c :: cs) = _
  rw [subPatF_succ_nomatch (c :: cs).length h]
  congr 1

theorem subPat_nil (key repl : List Char) : subPat key repl [] = [] := by
  simp [subPat, subPatF, matchPat]

/-- Joint specification of the decomposition: it reconstructs the input,
`subPat` equals the decomposition with matched segments replaced, and
every matched segment really is a pattern match (in its context). -/
theorem pieces_spec (key repl : List Char) (s : List Char) :
    joinSegs (pieces key s) = s ∧
    subPat key repl s = substSegs repl (pieces key s) ∧
    ∀ p ∈ pieces key s, p.1 = true →
      ∃ r, matchPat key (p.2 ++ r) = some (p.2, r) := by
  generalize hn : s.length = n
  induction n using Nat.strong_induction_on generalizing s with
  | _ n ih =>
    cases hm : matchPat key s with
    | some pr =>
      obtain ⟨m, rest⟩ := pr
      obtain ⟨hs, hlen⟩ := matchPat_append hm
      have hrest : rest.length < n := by
        subst hn; rw [hs]; simpa using hlen
      obtain ⟨ih1, ih2, ih3⟩ := ih rest.length hrest rest rfl
      refine ⟨?_, ?_, ?_⟩
      · rw [pieces_eq_match hm, joinSegs, ih1, hs]
      · rw [subPat_eq_match hm, pieces_eq_match hm, substSegs, ih2]
        simp
      · intro p hp htrue
        rw [pieces_eq_match hm] at hp
        rcases List.mem_cons.mp hp with hp' | hp'
        · subst hp'
          exact ⟨rest, by rw [← hs]; exact hm⟩
        · exact ih3 p hp' htrue
    | none =>
      cases s with
      | nil =>
        simp [pieces_nil, subPat_nil, joinSegs, substSegs]
      | cons c cs =>
        have hcs : cs.length < n := by subst hn; simp
        obtain ⟨ih1, ih2, ih3⟩ := ih cs.length hcs cs rfl
        refine ⟨?_, ?_, ?_⟩
        · rw [pieces_eq_nomatch hm, joinSegs, ih1]
          simp
        · rw [subPat_eq_nomatch hm, pieces_eq_nomatch hm, substSegs, ih2]
          simp
        · intro p hp htrue
          rw [pieces_eq_nomatch hm] at hp
          rcases List.mem_cons.mp hp with hp' | hp'
          · subst hp'; simp at htrue
          · exact ih3 p hp' htrue

/-!
The preset values: JSON scalars as they reach `apply_preset`.  Python
converts a `bool` to `"1"`/`"0"` and everything else with `str`; we carry
non-boolean values directly as their `str` representation.
-/

/-- A preset value: either a Python `bool` or any other value, represented
by the character sequence `str` produces for it. -/
inductive PVal where
  | pybool (b : Bool)
  | pystr (s : List Char)
deriving DecidableEq

/-- The string representation `apply_preset` substitutes into the config. -/
def PVal.toStr : PVal → List Char
  | .pybool true => ['1']
  | .pybool false => ['0']
  | .pystr s => s

/-- The replacement text `f'"{key}"\t\t"{value}"'`. -/
def mkRepl (key value : List Char) : List Char :=
  qc :: key ++ qc :: '\t' :: '\t' :: qc :: value ++ [qc]

/-- The line `f'\t{replacement}\n}}'` inserted for a setting that is not
present in the config text. -/
def insLine (repl : List Char) : List Char :=
  '\t' :: repl ++ ['\n', '}']

/-- Python's `str.replace("}", r)`: replace every closing brace by `r`. -/
def replaceBrace (r : List Char) : List Char → List Char
  | [] => []
  | c :: cs => if c = '}' then r ++ replaceBrace r cs else c :: replaceBrace r cs

/-- The metadata keys skipped by the update loop. -/
def isMetaKey (k : List Char) : Bool :=
  k = "name".toList || k = "description".toList

/-- One iteration of the update loop of `CS2PresetAdapter.apply_preset`
for a non-metadata key: search for the pattern; if found and the matched
text differs from the replacement, substitute every match; if absent,
insert the new setting line before every closing brace.  The boolean
records whether `settings_applied` was incremented. -/
def applyOne (content : List Char) (key : List Char) (v : PVal) : List Char × Bool :=
  let repl := mkRepl key v.toStr
  match searchPat key content with
  | some (_, m, _) => if m ≠ repl then (subPat key repl content, true) else (content, false)
  | none => (replaceBrace (insLine repl) content, true)

/-- The update loop over all preset entries, returning the final config
text and the number of settings applied. -/
def applyLoop (content : List Char) : List (List Char × PVal) → List Char × Nat
  | [] => (content, 0)
  | (k, v) :: rest =>
    if isMetaKey k then applyLoop content rest
    else
      let r := applyOne content k v
      let l := applyLoop r.1 rest
      (l.1, (if r.2 then 1 else 0) + l.2)

/-- The required resolution keys. -/
def resKey : List Char := "setting.defaultres".toList

/-- The required resolution-height key. -/
def resHeightKey : List Char := "setting.defaultresheight".toList

/-- Membership of a key in the preset data. -/
def hasKey (p : List (List Char × PVal)) (k : List Char) : Bool :=
  p.any (fun kv => kv.1 = k)

/-- Outcome of `apply_preset`: the returned boolean, whether the config
file was written, and the resulting config-file content. -/
structure ApplyOutcome where
  ret : Bool
  wrote : Bool
  content : List Char
deriving DecidableEq

/-- `CS2PresetAdapter.apply_preset` on a config file whose current text is
`content`: validate the preset data (non-empty, both resolution keys
present), run the update loop, and write the updated text back only when
at least one setting was applied.  The backup copy and the exception
handler concern only the filesystem and are modelled elsewhere. -/
def apply_preset (content : List Char) (p : List (List Char × PVal)) : ApplyOutcome :=
  if p.isEmpty then ⟨false, false, content⟩
  else if hasKey p resKey && hasKey p resHeightKey then
    let r := applyLoop content p
    if r.2 > 0 then ⟨true, true, r.1⟩ else ⟨true, false, content⟩
  else ⟨false, false, content⟩

/-!
Concrete config texts and presets used by the witnesses and the
counterexample below.  `decoyConfig` contains a setting named
`settingXdefaultres`, which is not named in `resPreset` but whose line is
matched by the unescaped pattern built from `setting.defaultres`.
-/

/-- A config text containing a decoy setting whose name matches the
`setting.defaultres` pattern because the dot is not escaped. -/
def decoyConfig : List Char :=
  ("\"video.cfg\"\n\x7b\n\t\"settingXdefaultres\"\t\t\"640\"\n\t\"setting.defaultres\"\t\t\"640\"\n\t\"setting.defaultresheight\"\t\t\"480\"\n\x7d\n").toList

/-- The name of the decoy setting. -/
def decoyKey : List Char := "settingXdefaultres".toList

/-- The full config line of the decoy setting. -/
def decoyLine : List Char :=
  ("\"settingXdefaultres\"\t\t\"640\"").toList

/-- A preset holding only the two required resolution settings. -/
def resPreset : List (List Char × PVal) :=
  [(resKey, .pystr "1280".toList), (resHeightKey, .pystr "960".toList)]

/-- A config whose settings already equal `matchedPreset`. -/
def matchedConfig : List Char :=
  ("\"video.cfg\"\n\x7b\n\t\"setting.defaultres\"\t\t\"1920\"\n\t\"setting.defaultresheight\"\t\t\"1080\"\n\x7d\n").toList

/-- A preset whose settings already occur verbatim in `matchedConfig`. -/
def matchedPreset : List (List Char × PVal) :=
  [(resKey, .pystr "1920".toList), (resHeightKey, .pystr "1080".toList)]

/-- Does `pat` occur at the head of the second list? -/
def startsIn : List Char → List Char → Bool
  | [], _ => true
  | _ :: _, [] => false
  | a :: as, b :: bs => a = b && startsIn as bs

/-- Does `pat` occur anywhere in the second list? -/
def occursIn (pat : List Char) : List Char → Bool
  | [] => startsIn pat []
  | c :: cs => startsIn pat (c :: cs) || occursIn pat cs

/-- C3: apply_preset rejects a preset exactly when the preset data is
empty or one of the two required resolution keys is absent, and a
rejected preset leaves the config file unwritten and unchanged; presence
of the two keys (in non-empty data) is also sufficient for acceptance, so
no other key is required. -/
theorem claim_C3_validation (content : List Char) (p : List (List Char × PVal)) :
    ((apply_preset content p).ret = false ↔
      p = [] ∨ hasKey p resKey = false ∨ hasKey p resHeightKey = false) ∧
    ((apply_preset content p).ret = false →
      (apply_preset content p).wrote = false ∧
      (apply_preset content p).content = content) := by
  cases hE : p.isEmpty with
  | true =>
    have : p = [] := by simpa using hE
    subst this
    simp [apply_preset]
  | false =>
    have hne : ¬ p = [] := by
      intro h
      subst h
      simp at hE
    cases hK : (hasKey p resKey && hasKey p resHeightKey) with
    | false =>
      have hdis : hasKey p resKey = false ∨ hasKey p resHeightKey = false := by
        rcases Bool.and_eq_false_iff.mp hK with h | h
        · exact Or.inl h
        · exact Or.inr h
      simp [apply_preset, hE, hK, hne, hdis]
    | true =>
      have hr : hasKey p resKey = true := (Bool.and_eq_true_iff.mp hK).1
      have hh : hasKey p resHeightKey = true := (Bool.and_eq_true_iff.mp hK).2
      simp only [apply_preset, hE, Bool.false_eq_true, if_false, hK, if_true]
      constructor
      · constructor
        · intro hret
          by_cases hz : (applyLoop content p).2 > 0 <;> simp [hz] at hret
        · intro hdis
          rcases hdis with h | h | h
          · exact absurd h hne
          · rw [hr] at h; exact absurd h (by simp)
          · rw [hh] at h; exact absurd h (by simp)
      · intro hret
        by_cases hz : (applyLoop content p).2 > 0 <;> simp [hz] at hret

/-- C3 witness: a one-key preset is rejected without touching the config,
and the two-key preset is accepted. -/
theorem claim_C3_validation_witness :
    (apply_preset matchedConfig [(resKey, PVal.pystr "1920".toList)]).ret = false ∧
    (apply_preset matchedConfig [(resKey, PVal.pystr "1920".toList)]).content = matchedConfig ∧
    (apply_preset matchedConfig resPreset).ret = true := by
  refine ⟨?_, ?_, ?_⟩
  · exact (claim_C3_validation matchedConfig
      [(resKey, PVal.pystr "1920".toList)]).1.mpr (by decide)
  · exact ((claim_C3_validation matchedConfig
      [(resKey, PVal.pystr "1920".toList)]).2 (by decide)).2
  · by_contra hfalse
    have := (claim_C3_validation matchedConfig resPreset).1.mp (by simpa using hfalse)
    revert this
    decide

/-- The update loop applies nothing when every non-metadata entry of the
preset already occurs verbatim in the config text. -/
theorem applyLoop_no_change {content : List Char} (p : List (List Char × PVal))
    (h : ∀ k v, (k, v) ∈ p → isMetaKey k = false →
      (searchPat k content).map (fun t => t.2.1) = some (mkRepl k (PVal.toStr v))) :
    applyLoop content p = (content, 0) := by
  induction p with
  | nil => rfl
  | cons kv rest ih =>
    obtain ⟨k, v⟩ := kv
    by_cases hm : isMetaKey k
    · simp only [applyLoop, hm, if_true]
      exact ih (fun k' v' hk' => h k' v' (List.mem_cons_of_mem _ hk'))
    · have hmf : isMetaKey k = false := by simpa using hm
      have hs := h k v (List.mem_cons_self _ _) hmf
      cases hsp : searchPat k content with
      | none => rw [hsp] at hs; simp at hs
      | some t =>
        obtain ⟨pre, m, r⟩ := t
        rw [hsp] at hs
        simp at hs
        have hone : applyOne content k v = (content, false) := by
          simp [applyOne, hsp, hs]
        have hrest := ih (fun k' v' hk' => h k' v' (List.mem_cons_of_mem _ hk'))
        simp [applyLoop, hm, hone, hrest]

/-- C9: when every non-metadata setting of a valid preset already occurs
in the config text exactly as its replacement line, apply_preset returns
True, does not write the file, and the content is unchanged. -/
theorem claim_C9_no_change (content : List Char) (p : List (List Char × PVal))
    (hne : p ≠ [])
    (h1 : hasKey p resKey = true) (h2 : hasKey p resHeightKey = true)
    (hmatch : ∀ k v, (k, v) ∈ p → isMetaKey k = false →
      (searchPat k content).map (fun t => t.2.1) = some (mkRepl k (PVal.toStr v))) :
    apply_preset content p = ⟨true, false, content⟩ := by
  have hloop := applyLoop_no_change p hmatch
  have hE : p.isEmpty = false := by
    cases p with
    | nil => exact absurd rfl hne
    | cons a l => rfl
  simp [apply_preset, hE, h1, h2, hloop]

/-- C9 witness: a preset equal to the current settings is accepted with
no write and no change. -/
theorem claim_C9_no_change_witness :
    apply_preset matchedConfig matchedPreset = ⟨true, false, matchedConfig⟩ := by
  apply claim_C9_no_change
  · decide
  · decide
  · decide
  · intro k v hkv hmeta
    simp only [matchedPreset, List.mem_cons, List.not_mem_nil, or_false,
      Prod.mk.injEq] at hkv
    rcases hkv with ⟨hk, hv⟩ | ⟨hk, hv⟩
    · subst hk; subst hv; decide
    · subst hk; subst hv; decide

/-- C1 counterexample: applying the two-key resolution preset to
`decoyConfig` succeeds and writes the file, but the line of the setting
`settingXdefaultres` — a setting not named in the preset — is destroyed,
because the unescaped dot of `setting.defaultres` matches the `X`.  So
characters of the config text that belong to no named setting's line are
changed in the written file, refuting the claim as stated. -/
theorem claim_C1_counterexample :
    (apply_preset decoyConfig resPreset).ret = true ∧
    (apply_preset decoyConfig resPreset).wrote = true ∧
    occursIn decoyLine decoyConfig = true ∧
    hasKey resPreset decoyKey = false ∧
    occursIn decoyKey (apply_preset decoyConfig resPreset).content = false := by
  decide

/-- C1 (amended): one update step of apply_preset for a key substitutes
along the decomposition of the config text into pattern matches — where a
dot in the key matches any character other than a newline, so settings not
named in the preset can be rewritten: if the pattern occurs and its first
occurrence differs from the replacement line, every occurrence is replaced
by the key's quoted preset value and every character outside the matched
occurrences is carried over unchanged; if the first occurrence equals the
replacement the text is left untouched; if the pattern does not occur the
new setting line is inserted before every closing brace. -/
theorem claim_C1_amended (content key : List Char) (v : PVal) :
    joinSegs (pieces key content) = content ∧
    (∀ q ∈ pieces key content, q.1 = true →
      ∃ r, matchPat key (q.2 ++ r) = some (q.2, r)) ∧
    (∀ pre m rest, searchPat key content = some (pre, m, rest) →
      (m ≠ mkRepl key (PVal.toStr v) →
        applyOne content key v =
          (substSegs (mkRepl key (PVal.toStr v)) (pieces key content), true)) ∧
      (m = mkRepl key (PVal.toStr v) →
        applyOne content key v = (content, false))) ∧
    (searchPat key content = none →
      applyOne content key v =
        (replaceBrace (insLine (mkRepl key (PVal.toStr v))) content, true)) := by
  obtain ⟨hjoin, hsub, hmatches⟩ := pieces_spec key (mkRepl key (PVal.toStr v)) content
  refine ⟨hjoin, hmatches, ?_, ?_⟩
  · intro pre m rest hsp
    constructor
    · intro hne
      simp [applyOne, hsp, hne, hsub]
    · intro heq
      simp [applyOne, hsp, heq]
  · intro hsp
    simp [applyOne, hsp]

/-- C1 amended witness: on the decoy config the substitution step for the
resolution key follows the decomposition, and the decomposition
reconstructs the config text. -/
theorem claim_C1_amended_witness :
    joinSegs (pieces resKey decoyConfig) = decoyConfig ∧
    applyOne decoyConfig resKey (PVal.pystr "1280".toList) =
      (substSegs (mkRepl resKey "1280".toList) (pieces resKey decoyConfig), true) := by
  obtain ⟨hjoin, _, hsome, _⟩ :=
    claim_C1_amended decoyConfig resKey (PVal.pystr "1280".toList)
  refine ⟨hjoin, ?_⟩
  cases hsp : searchPat resKey decoyConfig with
  | none => exact absurd hsp (by decide)
  | some t =>
    obtain ⟨pre, m, r⟩ := t
    have hne : m ≠ mkRepl resKey (PVal.toStr (PVal.pystr "1280".toList)) := by
      intro hEq
      have hmapped : (searchPat resKey decoyConfig).map (fun t => t.2.1) =
          some (mkRepl resKey (PVal.toStr (PVal.pystr "1280".toList))) := by
        rw [hsp, hEq]
        rfl
      revert hmapped
      decide
    exact (hsome pre m r hsp).1 hne

/-!
Filesystem model for `backup_config` / `restore_backup`.  A filesystem
maps a path (its full textual form) to the content of the file stored
there, if any.  `shutil.copy2` reads the source and overwrites the
destination; copying a missing file or copying a file onto itself raises,
which the model renders as `none`.
-/

/-- A filesystem: full path text to file content. -/
abbrev FS := List Char → Option (List Char)

/-- Overwrite the file at path `p` with `content`. -/
def fsWrite (fs : FS) (p content : List Char) : FS :=
  fun q => if q = p then some content else fs q

/-- Model of `shutil.copy2 src dst`. -/
def shutil_copy2 (fs : FS) (src dst : List Char) : Option FS :=
  if src = dst then none
  else
    match fs src with
    | none => none
    | some c => some (fsWrite fs dst c)

/-- The timestamped backup path
`config_path.parent / f"{config_path.name}.backup_{timestamp}"`, which as
path text appends the suffix to the config path. -/
def backup_name (cfg ts : List Char) : List Char :=
  cfg ++ ".backup_".toList ++ ts

/-- `CS2PresetAdapter.backup_config` with the default backup path: if the
config file exists, copy it to the timestamped backup path and return
that path, else return `None`. -/
def backup_config (fs : FS) (cfg ts : List Char) : Option (List Char) × FS :=
  match fs cfg with
  | none => (none, fs)
  | some _ =>
    match shutil_copy2 fs cfg (backup_name cfg ts) with
    | none => (none, fs)
    | some fs' => (some (backup_name cfg ts), fs')

/-- `CS2PresetAdapter.restore_backup`: if the backup file exists, copy it
over the config file and return `True`, else return `False`. -/
def restore_backup (fs : FS) (cfg bp : List Char) : Bool × FS :=
  match fs bp with
  | none => (false, fs)
  | some _ =>
    match shutil_copy2 fs bp cfg with
    | none => (false, fs)
    | some fs' => (true, fs')

theorem backup_name_ne (cfg ts : List Char) : backup_name cfg ts ≠ cfg := by
  intro h
  have := congrArg List.length h
  simp [backup_name] at this

/-- C2: for every config-file content, backup_config copies the config
file to the timestamped backup path and returns that path, and any later
restore_backup from that path (as long as the backup file still holds the
copy) overwrites the config file with the content it had at backup time. -/
theorem claim_C2_backup_restore (fs : FS) (cfg ts content : List Char)
    (h : fs cfg = some content) :
    (backup_config fs cfg ts).1 = some (backup_name cfg ts) ∧
    (backup_config fs cfg ts).2 (backup_name cfg ts) = some content ∧
    (backup_config fs cfg ts).2 cfg = some content ∧
    (∀ g : FS, g (backup_name cfg ts) = some content →
      (restore_backup g cfg (backup_name cfg ts)).1 = true ∧
      (restore_backup g cfg (backup_name cfg ts)).2 cfg = some content) := by
  have hne : backup_name cfg ts ≠ cfg := backup_name_ne cfg ts
  have hcopy : shutil_copy2 fs cfg (backup_name cfg ts) =
      some (fsWrite fs (backup_name cfg ts) content) := by
    have hne' : ¬ cfg = backup_name cfg ts := fun hEq => hne hEq.symm
    simp [shutil_copy2, hne', h]
  refine ⟨?_, ?_, ?_, ?_⟩
  · simp [backup_config, h, hcopy]
  · simp [backup_config, h, hcopy, fsWrite]
  · simp [backup_config, h, hcopy, fsWrite, hne]
  · intro g hg
    have hrcopy : shutil_copy2 g (backup_name cfg ts) cfg =
        some (fsWrite g cfg content) := by
      simp [shutil_copy2, hne, hg]
    constructor
    · simp [restore_backup, hg, hrcopy]
    · simp [restore_backup, hg, hrcopy, fsWrite]

/-- C2 witness: a concrete one-file filesystem round-trips through backup
and restore. -/
theorem claim_C2_backup_restore_witness :
    (restore_backup
      ((backup_config
        (fun q => if q = "cfg/video.txt".toList then some matchedConfig else none)
        "cfg/video.txt".toList "20240101_120000".toList).2)
      "cfg/video.txt".toList
      (backup_name "cfg/video.txt".toList "20240101_120000".toList)).2
      "cfg/video.txt".toList = some matchedConfig := by
  have h := claim_C2_backup_restore
    (fun q => if q = "cfg/video.txt".toList then some matchedConfig else none)
    "cfg/video.txt".toList "20240101_120000".toList matchedConfig (by simp)
  exact (h.2.2.2 _ h.2.1).2

/-!
Benchmark results (`src/katana/core/benchmark.py`).  Timestamps are
carried as the character sequences `time.strftime("%Y%m%d_%H%M%S")`
produces, which always have exactly 15 characters; run ids are the
natural numbers `execute_benchmark_run` is called with, rendered in
decimal by `str`.
-/

/-- The container `BenchmarkResult`. -/
structure BenchmarkResult where
  game_id : List Char
  run_id : Nat
  timestamp : List Char
  duration : Option Nat
  avg_fps : Option Nat
  min_fps : Option Nat
  max_fps : Option Nat
  screenshot_path : Option (List Char)
  raw_data : List (List Char × List Char)
deriving DecidableEq

/-- `BenchmarkResult.__init__`: all metric fields start out unset. -/
def mkBenchmarkResult (g : List Char) (r : Nat) (ts : List Char) : BenchmarkResult :=
  ⟨g, r, ts, none, none, none, none, none, []⟩

/-- Python's `str` on a natural number. -/
def natDec (n : Nat) : List Char :=
  if n = 0 then ['0'] else ((Nat.digits 10 n).map Nat.digitChar).reverse

/-- The file name `f"{game_id}_run{run_id}_{timestamp}.json"`. -/
def result_filename (res : BenchmarkResult) : List Char :=
  res.game_id ++ "_run".toList ++ natDec res.run_id ++ "_".toList ++
    res.timestamp ++ ".json".toList

/-- The full path `output_dir / filename` that `BenchmarkResult.save`
writes to. -/
def save_path (output_dir : List Char) (res : BenchmarkResult) : List Char :=
  output_dir ++ "/".toList ++ result_filename res

theorem natDec_ne_nil (n : Nat) : natDec n ≠ [] := by
  unfold natDec
  split
  · simp
  · rename_i h
    simp [Nat.digits_ne_nil_iff_ne_zero.mpr h]

theorem natDec_isDigit (n : Nat) : ∀ c ∈ natDec n, c.isDigit = true := by
  have hd : ∀ d : Nat, d < 10 → (Nat.digitChar d).isDigit = true := by decide
  unfold natDec
  split
  · intro c hc
    simp at hc
    subst hc
    decide
  · intro c hc
    simp at hc
    obtain ⟨d, hmem, hch⟩ := hc
    rw [← hch]
    exact hd d (Nat.digits_lt_base (by norm_num) hmem)

theorem map_digitChar_inj :
    ∀ (l1 l2 : List Nat), (∀ x ∈ l1, x < 10) → (∀ x ∈ l2, x < 10) →
      l1.map Nat.digitChar = l2.map Nat.digitChar → l1 = l2 := by
  have hinj : ∀ a < 10, ∀ b < 10,
      Nat.digitChar a = Nat.digitChar b → a = b := by decide
  intro l1
  induction l1 with
  | nil =>
    intro l2 _ _ h
    cases l2 with
    | nil => rfl
    | cons b bs => simp at h
  | cons a as ih =>
    intro l2 h1 h2 h
    cases l2 with
    | nil => simp at h
    | cons b bs =>
      simp only [List.map_cons, List.cons.injEq] at h
      have ha : a = b := hinj a (h1 a (by simp)) b (h2 b (by simp)) h.1
      have has : as = bs :=
        ih bs (fun x hx => h1 x (by simp [hx])) (fun x hx => h2 x (by simp [hx])) h.2
      rw [ha, has]

theorem natDec_inj {a b : Nat} (h : natDec a = natDec b) : a = b := by
  have key : ∀ n m : Nat, n ≠ 0 → m ≠ 0 → natDec n = natDec m → n = m := by
    intro n m hn hm hnm
    unfold natDec at hnm
    rw [if_neg hn, if_neg hm] at hnm
    have hmap := List.reverse_injective hnm
    have hdig := map_digitChar_inj _ _
      (fun x hx => Nat.digits_lt_base (by norm_num) hx)
      (fun x hx => Nat.digits_lt_base (by norm_num) hx) hmap
    calc n = Nat.ofDigits 10 (Nat.digits 10 n) := (Nat.ofDigits_digits 10 n).symm
      _ = Nat.ofDigits 10 (Nat.digits 10 m) := by rw [hdig]
      _ = m := Nat.ofDigits_digits 10 m
  by_cases ha : a = 0 <;> by_cases hb : b = 0
  · rw [ha, hb]
  · exfalso
    subst ha
    unfold natDec at h
    rw [if_pos rfl, if_neg hb] at h
    have h0 : (Nat.digits 10 b).map Nat.digitChar = ['0'] := by
      have := congrArg List.reverse h
      simpa using this.symm
    have hdig : Nat.digits 10 b = [0] := by
      apply map_digitChar_inj _ [0]
        (fun x hx => Nat.digits_lt_base (by norm_num) hx) (by simp)
      simpa using h0
    have : b = 0 := by
      calc b = Nat.ofDigits 10 (Nat.digits 10 b) := (Nat.ofDigits_digits 10 b).symm
        _ = 0 := by rw [hdig]; simp [Nat.ofDigits]
    exact hb this
  · exfalso
    subst hb
    unfold natDec at h
    rw [if_pos rfl, if_neg ha] at h
    have h0 : (Nat.digits 10 a).map Nat.digitChar = ['0'] := by
      have := congrArg List.reverse h.symm
      simpa using this.symm
    have hdig : Nat.digits 10 a = [0] := by
      apply map_digitChar_inj _ [0]
        (fun x hx => Nat.digits_lt_base (by norm_num) hx) (by simp)
      simpa using h0
    have : a = 0 := by
      calc a = Nat.ofDigits 10 (Nat.digits 10 a) := (Nat.ofDigits_digits 10 a).symm
        _ = 0 := by rw [hdig]; simp [Nat.ofDigits]
    exact ha this
  · exact key a b ha hb h

/-- The maximal all-digit suffix of a character list. -/
def digitSuffix (l : List Char) : List Char :=
  (l.reverse.takeWhile Char.isDigit).reverse

theorem takeWhile_append_all {p : Char → Bool} :
    ∀ (l1 l2 : List Char), (∀ x ∈ l1, p x = true) →
      (l1 ++ l2).takeWhile p = l1 ++ l2.takeWhile p := by
  intro l1
  induction l1 with
  | nil => intro l2 _; simp
  | cons a as ih =>
    intro l2 h
    have ha : p a = true := h a (by simp)
    simp [List.takeWhile_cons, ha, ih l2 (fun x hx => h x (by simp [hx]))]

theorem digitSuffix_spec {a d : List Char} {c : Char}
    (hc : c.isDigit = false) (hd : ∀ x ∈ d, x.isDigit = true) :
    digitSuffix (a ++ c :: d) = d := by
  unfold digitSuffix
  rw [List.reverse_append, List.reverse_cons]
  rw [List.append_assoc]
  rw [takeWhile_append_all d.reverse ([c] ++ a.reverse) (fun x hx => hd x (by simpa using hx))]
  simp [List.takeWhile_cons, hc]

theorem save_path_inj {output_dir : List Char} {r1 r2 : BenchmarkResult}
    (h1 : r1.timestamp.length = 15) (h2 : r2.timestamp.length = 15)
    (h : save_path output_dir r1 = save_path output_dir r2) :
    r1.game_id = r2.game_id ∧ r1.run_id = r2.run_id ∧ r1.timestamp = r2.timestamp := by
  unfold save_path at h
  have hfile : result_filename r1 = result_filename r2 :=
    List.append_cancel_left h
  unfold result_filename at hfile
  have hshape : ∀ (g : List Char) (r : Nat) (t : List Char),
      g ++ "_run".toList ++ natDec r ++ "_".toList ++ t ++ ".json".toList =
        (g ++ "_run".toList ++ natDec r) ++ ('_' :: (t ++ ".json".toList)) := by
    intro g r t
    simp
  rw [hshape r1.game_id r1.run_id r1.timestamp,
      hshape r2.game_id r2.run_id r2.timestamp] at hfile
  have hlen : ('_' :: (r1.timestamp ++ ".json".toList)).length =
      ('_' :: (r2.timestamp ++ ".json".toList)).length := by
    simp [h1, h2]
  obtain ⟨hA, hB⟩ := List.append_inj' hfile hlen
  have hts : r1.timestamp = r2.timestamp := by
    have := List.tail_eq_of_cons_eq hB
    exact (List.append_inj' this (by simp [h1, h2])).1
  have hA' : (r1.game_id ++ ['_', 'r', 'u']) ++ 'n' :: natDec r1.run_id =
      (r2.game_id ++ ['_', 'r', 'u']) ++ 'n' :: natDec r2.run_id := by
    have e1 : r1.game_id ++ "_run".toList ++ natDec r1.run_id =
        (r1.game_id ++ ['_', 'r', 'u']) ++ 'n' :: natDec r1.run_id := by simp
    have e2 : r2.game_id ++ "_run".toList ++ natDec r2.run_id =
        (r2.game_id ++ ['_', 'r', 'u']) ++ 'n' :: natDec r2.run_id := by simp
    rw [← e1, ← e2]
    exact hA
  have hd : natDec r1.run_id = natDec r2.run_id := by
    have hd1 := digitSuffix_spec (a := r1.game_id ++ ['_', 'r', 'u']) (c := 'n')
      (by decide) (natDec_isDigit r1.run_id)
    have hd2 := digitSuffix_spec (a := r2.game_id ++ ['_', 'r', 'u']) (c := 'n')
      (by decide) (natDec_isDigit r2.run_id)
    rw [← hd1, ← hd2, hA']
  have hrun : r1.run_id = r2.run_id := natDec_inj hd
  have hg : r1.game_id = r2.game_id := by
    rw [hd] at hA'
    have := List.append_cancel_right hA'
    exact List.append_cancel_right this
  exact ⟨hg, hrun, hts⟩

/-- C8: BenchmarkResult.save writes to a path determined by the game id,
run id and timestamp (for a fixed output directory), and two results that
differ in this triple are saved to distinct file paths. -/
theorem claim_C8_save_path_unique (output_dir : List Char) (r1 r2 : BenchmarkResult)
    (h1 : r1.timestamp.length = 15) (h2 : r2.timestamp.length = 15)
    (hne : ¬ (r1.game_id = r2.game_id ∧ r1.run_id = r2.run_id ∧
      r1.timestamp = r2.timestamp)) :
    save_path output_dir r1 ≠ save_path output_dir r2 := by
  intro h
  exact hne (save_path_inj h1 h2 h)

/-- C8 witness: two results differing only in the run id get distinct
save paths. -/
theorem claim_C8_save_path_unique_witness :
    save_path "results".toList (mkBenchmarkResult "730".toList 1 "20240101_120000".toList) ≠
    save_path "results".toList (mkBenchmarkResult "730".toList 2 "20240101_120000".toList) := by
  apply claim_C8_save_path_unique
  · decide
  · decide
  · decide

/-!
`CS2Benchmark.collect_results` (`src/katana/games/cs2/benchmark.py`): a
`BenchmarkResult` is constructed first; for the dry run (run 0) its
`duration` and `screenshot_path` fields are then assigned when the end
screen is detected, and for later runs they are assigned from the known
duration.  Times are naturals (seconds); `take_screenshot` may return
`None`, carried as an `Option`.
-/

/-- Model of `CS2Benchmark.collect_results`: `start_time` is
`self.benchmark_start_time`, `known_duration` is
`self.benchmark_duration` from the dry run, `end_detected` is the
outcome of waiting for the end screen, `shot` the screenshot path. -/
def collect_results (game_id : List Char) (run_id : Nat) (ts : List Char)
    (start_time : Nat) (known_duration : Option Nat)
    (end_detected : Bool) (end_time : Nat) (shot : Option (List Char)) :
    Option BenchmarkResult :=
  let result := mkBenchmarkResult game_id run_id ts
  if run_id = 0 then
    if end_detected then
      some { result with
              duration := some (end_time - start_time),
              screenshot_path := shot }
    else none
  else
    match known_duration with
    | none => none
    | some kd =>
      some { result with screenshot_path := shot, duration := some kd }

/-- C4 counterexample: on the dry run with the end screen detected at
time 70 after a start at time 10, collect_results returns a result whose
duration field is `60`, while the object constructed by
`BenchmarkResult.__init__` has no duration — the field was assigned after
construction, refuting the claim that no field is assigned after
`__init__`. -/
theorem claim_C4_counterexample :
    collect_results "730".toList 0 "20240101_120000".toList 10 none true 70
        (some "shot.png".toList) ≠
      some (mkBenchmarkResult "730".toList 0 "20240101_120000".toList) ∧
    (collect_results "730".toList 0 "20240101_120000".toList 10 none true 70
        (some "shot.png".toList)).map BenchmarkResult.duration =
      some (some 60) ∧
    (mkBenchmarkResult "730".toList 0 "20240101_120000".toList).duration = none := by
  exact ⟨by decide, by decide, by decide⟩

structure RunEnv where
  launch_exc : Bool
  focus_exc : Bool
  wait_exc : Bool
  navigate_exc : Bool
  start_exc : Bool
  collect_exc : Bool
  collect_ret : Option BenchmarkResult
  teardown_exc : Bool

/-- The benchmark steps issued by a run, in the order they happen. -/
inductive StepEvent where
  | launch
  | focus
  | waitReady
  | navigate
  | start
  | collect (run_id : Nat)
  | teardown
deriving DecidableEq

/-- True when no step of the run raises an exception. -/
def stepsOk (env : RunEnv) : Bool :=
  !env.launch_exc && !env.focus_exc && !env.wait_exc && !env.navigate_exc &&
    !env.start_exc && !env.collect_exc && !env.teardown_exc

/-- Model of `GameBenchmark.execute_benchmark_run`: the steps are issued
unconditionally in a fixed order inside a `try` block; the first step
that raises ends the run with `None` and leaves `self.results` alone.
After a completed run the collected result (if not `None`) is appended to
`self.results` and saved.  Returns the step trace, the returned value,
the new `self.results` and the list of results written to disk. -/
def execute_benchmark_run (env : RunEnv) (run_id : Nat)
    (results : List BenchmarkResult) :
    List StepEvent × Option BenchmarkResult × List BenchmarkResult × List BenchmarkResult :=
  if env.launch_exc then ([.launch], none, results, [])
  else if env.focus_exc then ([.launch, .focus], none, results, [])
  else if env.wait_exc then ([.launch, .focus, .waitReady], none, results, [])
  else if env.navigate_exc then
    ([.launch, .focus, .waitReady, .navigate], none, results, [])
  else if env.start_exc then
    ([.launch, .focus, .waitReady, .navigate, .start], none, results, [])
  else if env.collect_exc then
    ([.launch, .focus, .waitReady, .navigate, .start, .collect run_id], none, results, [])
  else if env.teardown_exc then
    ([.launch, .focus, .waitReady, .navigate, .start, .collect run_id, .teardown],
      none, results, [])
  else
    match env.collect_ret with
    | some r =>
      ([.launch, .focus, .waitReady, .navigate, .start, .collect run_id, .teardown],
        some r, results ++ [r], [r])
    | none =>
      ([.launch, .focus, .waitReady, .navigate, .start, .collect run_id, .teardown],
        none, results, [])

/-- C5: a run that raises no exception issues exactly the steps launch,
focus, wait-until-ready, navigate, start, collect, teardown in that
order, with collect invoked with the given run id. -/
theorem claim_C5_step_sequence (env : RunEnv) (run_id : Nat)
    (results : List BenchmarkResult) (h : stepsOk env = true) :
    (execute_benchmark_run env run_id results).1 =
      [.launch, .focus, .waitReady, .navigate, .start, .collect run_id, .teardown] := by
  obtain ⟨e1, e2, e3, e4, e5, e6, e7, e8⟩ := env
  simp only [stepsOk, Bool.and_eq_true, Bool.not_eq_true'] at h
  obtain ⟨⟨⟨⟨⟨⟨h1, h2⟩, h3⟩, h4⟩, h5⟩, h6⟩, h7⟩ := h
  subst h1 h2 h3 h4 h5 h6 h7
  cases e7 <;> rfl

/-- C5 witness: a concrete clean run issues the seven steps in order. -/
theorem claim_C5_step_sequence_witness :
    (execute_benchmark_run
      ⟨false, false, false, false, false, false,
        some (mkBenchmarkResult "730".toList 1 "20240101_120000".toList), false⟩
      1 []).1 =
      [.launch, .focus, .waitReady, .navigate, .start, .collect 1, .teardown] :=
  claim_C5_step_sequence _ 1 [] (by decide)

/-- C10: a result is appended to self.results and saved exactly when no
step raises and collect_results returns a result (which is then also the
returned value); when a step raises, the run returns None and
self.results is unchanged. -/
theorem claim_C10_record_iff_complete (env : RunEnv) (run_id : Nat)
    (results : List BenchmarkResult) :
    ((∃ r, (execute_benchmark_run env run_id results).2.2.1 = results ++ [r] ∧
        (execute_benchmark_run env run_id results).2.2.2 = [r] ∧
        (execute_benchmark_run env run_id results).2.1 = some r) ↔
      (stepsOk env = true ∧ ∃ r, env.collect_ret = some r)) ∧
    (stepsOk env = false →
      (execute_benchmark_run env run_id results).2.1 = none ∧
      (execute_benchmark_run env run_id results).2.2.1 = results) ∧
    (∀ r, stepsOk env = true → env.collect_ret = some r →
      (execute_benchmark_run env run_id results).2.2.1 = results ++ [r] ∧
      (execute_benchmark_run env run_id results).2.2.2 = [r] ∧
      (execute_benchmark_run env run_id results).2.1 = some r) := by
  obtain ⟨e1, e2, e3, e4, e5, e6, cret, e8⟩ := env
  cases e1 <;> cases e2 <;> cases e3 <;> cases e4 <;> cases e5 <;> cases e6 <;>
    cases e8 <;> cases cret <;>
    simp [execute_benchmark_run, stepsOk]

/-- C10 witness: with a clean environment the collected result is
appended and saved; with a raising step nothing is recorded. -/
theorem claim_C10_record_iff_complete_witness :
    (execute_benchmark_run
      ⟨false, false, false, false, false, false,
        some (mkBenchmarkResult "730".toList 1 "t".toList), false⟩ 1 []).2.2.1 =
      [mkBenchmarkResult "730".toList 1 "t".toList] ∧
    (execute_benchmark_run
      ⟨false, false, true, false, false, false,
        some (mkBenchmarkResult "730".toList 1 "t".toList), false⟩ 1 []).2.2.1 = [] := by
  constructor
  · have h := (claim_C10_record_iff_complete
      ⟨false, false, false, false, false, false,
        some (mkBenchmarkResult "730".toList 1 "t".toList), false⟩ 1 []).2.2
    exact (h _ (by decide) rfl).1
  · have h := (claim_C10_record_iff_complete
      ⟨false, false, true, false, false, false,
        some (mkBenchmarkResult "730".toList 1 "t".toList), false⟩ 1 []).2.1
    exact (h (by decide)).2

/-- C4 (amended): a benchmark result is created once per run; its
duration and screenshot_path fields are assigned inside collect_results
after construction, all other fields keep their construction values, and
once collect_results has returned, the result is appended and saved with
no further field changes. -/
theorem claim_C4_amended (g : List Char) (rid : Nat) (ts : List Char)
    (st : Nat) (kd : Option Nat) (ed : Bool) (et : Nat)
    (sh : Option (List Char)) (r : BenchmarkResult)
    (h : collect_results g rid ts st kd ed et sh = some r) :
    (r.game_id = g ∧ r.run_id = rid ∧ r.timestamp = ts ∧
      r.avg_fps = none ∧ r.min_fps = none ∧ r.max_fps = none ∧
      r.raw_data = [] ∧ r.screenshot_path = sh ∧ r.duration.isSome = true) ∧
    (∀ env results, stepsOk env = true → env.collect_ret = some r →
      (execute_benchmark_run env rid results).2.2.1 = results ++ [r] ∧
      (execute_benchmark_run env rid results).2.2.2 = [r]) := by
  constructor
  · unfold collect_results mkBenchmarkResult at h
    by_cases h0 : rid = 0
    · rw [if_pos h0] at h
      cases ed with
      | false => simp at h
      | true =>
        simp only [if_true] at h
        have := Option.some.inj h
        subst this
        simp [h0]
    · rw [if_neg h0] at h
      cases kd with
      | none => simp at h
      | some d =>
        simp only [] at h
        have := Option.some.inj h
        subst this
        simp
  · intro env results hok hret
    obtain ⟨e1, e2, e3, e4, e5, e6, cret, e8⟩ := env
    simp only [stepsOk, Bool.and_eq_true, Bool.not_eq_true'] at hok
    obtain ⟨⟨⟨⟨⟨⟨h1, h2⟩, h3⟩, h4⟩, h5⟩, h6⟩, h7⟩ := hok
    subst h1 h2 h3 h4 h5 h6 h7
    simp only at hret
    subst hret
    simp [execute_benchmark_run]

/-- C4 amended witness: the result collected on the concrete dry run has
the constructed identity fields, a set duration, and is recorded
unchanged by a clean run. -/
theorem claim_C4_amended_witness :
    ∃ r, collect_results "730".toList 0 "20240101_120000".toList 10 none true 70
        (some "shot.png".toList) = some r ∧
      r.duration.isSome = true ∧
      (execute_benchmark_run
        ⟨false, false, false, false, false, false, some r, false⟩ 0 []).2.2.2 = [r] := by
  cases hcr : collect_results "730".toList 0 "20240101_120000".toList 10 none true 70
      (some "shot.png".toList) with
  | none => exact absurd hcr (by decide)
  | some r =>
    refine ⟨r, rfl, ?_, ?_⟩
    · exact (claim_C4_amended _ _ _ _ _ _ _ _ _ hcr).1.2.2.2.2.2.2.2.2
    · exact ((claim_C4_amended _ _ _ _ _ _ _ _ _ hcr).2
        ⟨false, false, false, false, false, false, some r, false⟩ [] rfl rfl).2

/-!
`GameInteractor` retry and polling loops
(`src/katana/core/interaction.py`).  The outcome of the `i`-th call to
`click_template` (resp. the `i`-th visibility poll) is an oracle
`Nat → Bool`.  A poll happens every loop iteration; each iteration of the
disappear loop takes one half-second tick, so a `disappear_timeout` of
`t` seconds admits at most `2 * t` polls.
-/

/-- Worker shared by the retry loop and the disappear-polling loop: try
the oracle starting at index `k` for at most `n` rounds, stopping at the
first `true`; returns the result and the number of oracle calls made. -/
def retryGo (oracle : Nat → Bool) (k : Nat) : Nat → Bool × Nat
  | 0 => (false, 0)
  | n + 1 =>
    if oracle k then (true, 1)
    else
      let r := retryGo oracle (k + 1) n
      (r.1, r.2 + 1)

/-- `GameInteractor.click_template_with_retry`: up to `max_retries + 1`
calls to `click_template`, returning as soon as one succeeds. -/
def click_template_with_retry (outcome : Nat → Bool) (max_retries : Nat) : Bool × Nat :=
  retryGo outcome 0 (max_retries + 1)

/-- `GameInteractor.click_template`: `found` is whether the detector
found the template, `click_success` the result of the click,
`wait_disappear` the flag, `detect k` whether the template is still
visible at the `k`-th poll, and `timeout_ticks` the number of
half-second ticks in `disappear_timeout`. -/
def click_template (found click_success wait_disappear : Bool)
    (detect : Nat → Bool) (timeout_ticks : Nat) : Bool :=
  if found = false then false
  else
    let success := click_success
    if success && wait_disappear then
      if (retryGo (fun k => !detect k) 0 timeout_ticks).1 then true else success
    else success

theorem retryGo_spec (oracle : Nat → Bool) :
    ∀ n k,
      (retryGo oracle k n).2 ≤ n ∧
      ((retryGo oracle k n).1 = true →
        1 ≤ (retryGo oracle k n).2 ∧
        oracle (k + ((retryGo oracle k n).2 - 1)) = true ∧
        ∀ j, j < (retryGo oracle k n).2 - 1 → oracle (k + j) = false) ∧
      ((retryGo oracle k n).1 = false →
        (retryGo oracle k n).2 = n ∧ ∀ j, j < n → oracle (k + j) = false) := by
  intro n
  induction n with
  | zero =>
    intro k
    refine ⟨Nat.le_refl 0, ?_, ?_⟩
    · intro h; simp [retryGo] at h
    · intro _; exact ⟨rfl, fun j hj => absurd hj (Nat.not_lt_zero j)⟩
  | succ n ih =>
    intro k
    by_cases hk : oracle k
    · refine ⟨?_, ?_, ?_⟩
      · simp [retryGo, hk]
      · intro _
        simp [retryGo, hk]
      · intro h
        simp [retryGo, hk] at h
    · obtain ⟨ih1, ih2, ih3⟩ := ih (k + 1)
      have hkf : oracle k = false := by simpa using hk
      have hres : retryGo oracle k (n + 1) =
          ((retryGo oracle (k + 1) n).1, (retryGo oracle (k + 1) n).2 + 1) := by
        simp [retryGo, hkf]
      refine ⟨?_, ?_, ?_⟩
      · rw [hres]; simpa using ih1
      · intro h
        rw [hres] at h ⊢
        simp only at h ⊢
        obtain ⟨hge, hhit, hbefore⟩ := ih2 h
        refine ⟨by omega, ?_, ?_⟩
        · have : k + (retryGo oracle (k + 1) n).2 + 1 - 1 =
              k + 1 + ((retryGo oracle (k + 1) n).2 - 1) := by omega
          rw [Nat.add_sub_cancel]
          have e : k + (retryGo oracle (k + 1) n).2 =
              k + 1 + ((retryGo oracle (k + 1) n).2 - 1) := by omega
          rw [e]
          exact hhit
        · intro j hj
          rw [Nat.add_sub_cancel] at hj
          cases j with
          | zero => simpa using hkf
          | succ j =>
            have : k + (j + 1) = k + 1 + j := by omega
            rw [this]
            exact hbefore j (by omega)
      · intro h
        rw [hres] at h ⊢
        simp only at h ⊢
        obtain ⟨hcount, hall⟩ := ih3 h
        refine ⟨by omega, ?_⟩
        intro j hj
        cases j with
        | zero => simpa using hkf
        | succ j =>
          have : k + (j + 1) = k + 1 + j := by omega
          rw [this]
          exact hall j (by omega)

/-- C6: click_template_with_retry calls click_template at most
max_retries + 1 times; it returns True as soon as a call succeeds (the
call count is one more than the index of the first success, and all
earlier calls failed); and it returns False only when all
max_retries + 1 calls have failed. -/
theorem claim_C6_retry (outcome : Nat → Bool) (max_retries : Nat) :
    (click_template_with_retry outcome max_retries).2 ≤ max_retries + 1 ∧
    ((click_template_with_retry outcome max_retries).1 = true ↔
      ∃ k, k ≤ max_retries ∧ outcome k = true) ∧
    ((click_template_with_retry outcome max_retries).1 = true →
      outcome ((click_template_with_retry outcome max_retries).2 - 1) = true ∧
      ∀ j, j < (click_template_with_retry outcome max_retries).2 - 1 →
        outcome j = false) ∧
    ((click_template_with_retry outcome max_retries).1 = false →
      (click_template_with_retry outcome max_retries).2 = max_retries + 1 ∧
      ∀ k, k ≤ max_retries → outcome k = false) := by
  obtain ⟨h1, h2, h3⟩ := retryGo_spec outcome (max_retries + 1) 0
  unfold click_template_with_retry
  simp only [Nat.zero_add] at h2 h3
  refine ⟨h1, ?_, ?_, ?_⟩
  · constructor
    · intro h
      obtain ⟨hge, hhit, _⟩ := h2 h
      exact ⟨(retryGo outcome 0 (max_retries + 1)).2 - 1, by omega, hhit⟩
    · intro ⟨k, hk, hout⟩
      cases hres : (retryGo outcome 0 (max_retries + 1)).1 with
      | true => rfl
      | false =>
        obtain ⟨_, hall⟩ := h3 hres
        exact absurd hout (by simp [hall k (by omega)])
  · intro h
    obtain ⟨hge, hhit, hbefore⟩ := h2 h
    exact ⟨hhit, hbefore⟩
  · intro h
    obtain ⟨hcount, hall⟩ := h3 h
    exact ⟨hcount, fun k hk => hall k (by omega)⟩

/-- C6 witness: with success on the third attempt and two allowed
retries, the loop returns True after exactly three calls. -/
theorem claim_C6_retry_witness :
    (click_template_with_retry (fun k => decide (k = 2)) 2).2 ≤ 3 ∧
    (click_template_with_retry (fun k => decide (k = 2)) 2).1 = true := by
  obtain ⟨h1, h2, _, _⟩ := claim_C6_retry (fun k => decide (k = 2)) 2
  exact ⟨h1, h2.mpr ⟨2, by omega, by decide⟩⟩

/-- C7: with wait_disappear set, after a successful click the polling
loop makes at most `timeout_ticks` polls; it stops right after the first
poll at which the template is no longer detected; and in every case the
function returns the click's success value. -/
theorem claim_C7_disappear_wait (s : Bool) (detect : Nat → Bool) (timeout_ticks : Nat) :
    click_template true s true detect timeout_ticks = s ∧
    (retryGo (fun k => !detect k) 0 timeout_ticks).2 ≤ timeout_ticks ∧
    (∀ j, j < timeout_ticks → detect j = false → (∀ i, i < j → detect i = true) →
      (retryGo (fun k => !detect k) 0 timeout_ticks).2 = j + 1 ∧
      (retryGo (fun k => !detect k) 0 timeout_ticks).1 = true) ∧
    ((∀ j, j < timeout_ticks → detect j = true) →
      (retryGo (fun k => !detect k) 0 timeout_ticks).2 = timeout_ticks) := by
  obtain ⟨h1, h2, h3⟩ := retryGo_spec (fun k => !detect k) timeout_ticks 0
  simp only [Nat.zero_add] at h2 h3
  refine ⟨?_, h1, ?_, ?_⟩
  · unfold click_template
    cases s with
    | false => simp
    | true =>
      simp only [Bool.true_and, if_true]
      cases hres : (retryGo (fun k => !detect k) 0 timeout_ticks).1 <;> simp
  · intro j hj hvanish hbefore
    cases hres : (retryGo (fun k => !detect k) 0 timeout_ticks).1 with
    | false =>
      obtain ⟨_, hall⟩ := h3 hres
      have := hall j hj
      rw [hvanish] at this
      simp at this
    | true =>
      obtain ⟨hge, hhit, hb⟩ := h2 hres
      set c := (retryGo (fun k => !detect k) 0 timeout_ticks).2 with hc
      have hcj : c - 1 = j := by
        by_cases hlt : c - 1 < j
        · have := hbefore (c - 1) hlt
          rw [this] at hhit
          simp at hhit
        · by_cases hgt : j < c - 1
          · have := hb j hgt
            rw [hvanish] at this
            simp at this
          · omega
      exact ⟨by omega, rfl⟩
  · intro hall
    cases hres : (retryGo (fun k => !detect k) 0 timeout_ticks).1 with
    | false => exact (h3 hres).1
    | true =>
      obtain ⟨hge, hhit, _⟩ := h2 hres
      have hlt : (retryGo (fun k => !detect k) 0 timeout_ticks).2 - 1 < timeout_ticks := by
        omega
      have := hall _ hlt
      rw [this] at hhit
      simp at hhit

/-- C7 witness: a template that disappears at the second poll stops the
loop after two polls, and the function returns the click's success. -/
theorem claim_C7_disappear_wait_witness :
    click_template true true true (fun k => decide (k < 1)) 20 = true ∧
    (retryGo (fun k => !decide (k < 1)) 0 20).2 = 2 := by
  obtain ⟨h1, _, h3, _⟩ := claim_C7_disappear_wait true (fun k => decide (k < 1)) 20
  refine ⟨h1, ?_⟩
  exact (h3 1 (by omega) (by decide) (fun i hi => by
    interval_cases i
    decide)).1

end Katana
